import Mathlib

/-
Shallow embedding of the gpoll repository (a Go library polling a git remote
and emitting per-commit file-change diffs).

The repository contains several revisions of the same package concatenated:
  * `src/unnamed/part_001` — the git layer of the CommitDiff revision
    (types `FileChange`, `Commit`, `CommitDiff`, service methods `Diff`,
    `DiffRemote`, `listCommits`, `FetchLatestRemoteCommit`, `Clone`);
    embedded below in namespace `DiffCore`.
  * `src/gpoll.go` (first file in the blob) — the poller of that revision
    (`Poll`, `loop`, `onStart`, `setup`); embedded in namespace `Gpoll`.
  * `src/git_mock.go` (second file in the blob) — auth selection
    (`toAuthMethod`); embedded in namespace `Auth`.

External go-git operations (fetch, head resolution, remote listing, commit
lookup, parent traversal, tree computation, tree diffing, worktree pull) are
modelled as record fields of `GitExt`: each is a value/function of the
environment, returning `Except GitError _` exactly where the Go API returns
`(T, error)`.  go-git's sentinel `NoErrAlreadyUpToDate` is one `GitError`
constructor.
-/

/-- go-git object-model commit (`object.Commit`): hash, author name/email,
author timestamp (already in UTC, as an integer), message. -/
structure ObjCommit where
  hash : String
  authorName : String
  authorEmail : String
  whenUTC : Int
  message : String
deriving DecidableEq, Repr

/-- Errors from the external go-git layer.  `noErrAlreadyUpToDate` models the
go-git sentinel `git.NoErrAlreadyUpToDate`, returned as a non-nil error by
`Fetch`/`Pull` when there is nothing to fetch/pull. -/
inductive GitError where
  | noErrAlreadyUpToDate
  | other (msg : String)
deriving DecidableEq, Repr

/-- Actions of go-git's `merkletrie` tree-diff primitive. -/
inductive MerkleAction where
  | modify
  | delete
  | insert
deriving DecidableEq, Repr

/-- One entry of a go-git tree diff (`object.Change`): its action and the
path names of its `From` and `To` sides. -/
structure TreeDelta where
  action : MerkleAction
  fromName : String
  toName : String
deriving DecidableEq, Repr

/-- Opaque handle for a go-git tree object. -/
structure GitTree where
  id : Nat
deriving DecidableEq, Repr

/-- `ChangeType` enum from the source (iota order: Update, Create, Delete,
Init). -/
inductive ChangeType where
  | update
  | create
  | delete
  | init
deriving DecidableEq, Repr

/-- `plumbing.NewBranchReferenceName`. -/
def newBranchReferenceName (branch : String) : String :=
  "refs/heads/" ++ branch

namespace DiffCore

/-- `Author` struct of the CommitDiff revision. -/
structure Author where
  name : String
  email : String
deriving DecidableEq, Repr

/-- `Commit` struct of the CommitDiff revision: sha, UTC timestamp, author,
message. -/
structure Commit where
  sha : String
  whenUTC : Int
  author : Author
  message : String
deriving DecidableEq, Repr

/-- `FileChange` struct: repository path and change type. -/
structure FileChange where
  filepath : String
  changeType : ChangeType
deriving DecidableEq, Repr

/-- `CommitDiff` struct: the ordered changes of one commit-to-commit step,
with its `From` and `To` commits. -/
structure CommitDiff where
  changes : List FileChange
  fromCommit : Commit
  toCommit : Commit
deriving DecidableEq, Repr

/-- The external go-git capability used by `gitImpl` in the CommitDiff
revision.  Field by field:
`fetchErr` = error result of `repo.Fetch` (`none` = nil);
`headHash` = `repo.Head().Hash()` (folding the reference lookup);
`remoteRefs` = `repo.Remote(remoteName).List(...)` as (ref name, hash) pairs
(folding the remote lookup error into the `Except`);
`commitObject` = `repo.CommitObject`;
`parentsNext` = `commit.Parents().Next()` (first parent, or error at a root);
`tree` = `commit.Tree()`;
`treeDiff` = `fromTree.Diff(toTree)` together with each entry's `Action()`;
`worktreeErr` = error result of `repo.Worktree()`;
`pullErr` = error result of `worktree.Pull` (`none` = nil). -/
structure GitExt where
  fetchErr : Option GitError
  headHash : Except GitError String
  remoteRefs : Except GitError (List (String × String))
  commitObject : String → Except GitError ObjCommit
  parentsNext : ObjCommit → Except GitError ObjCommit
  tree : ObjCommit → Except GitError GitTree
  treeDiff : GitTree → GitTree → Except GitError (List TreeDelta)
  worktreeErr : Option GitError
  pullErr : Option GitError

/-- `ToInternal`: convert a go-git commit to the library's `Commit`. -/
def ToInternal (c : ObjCommit) : Commit :=
  { sha := c.hash
    whenUTC := c.whenUTC
    author := { name := c.authorName, email := c.authorEmail }
    message := c.message }

/-- The classification performed inside `Diff`'s loop body: the `switch` on
the merkletrie action plus the `From`/`To` path selection.  (The Go code
starts from the zero value `FileChange{}`; every action branch of the switch
assigns a type, so the zero value never survives.) -/
def classifyDelta (d : TreeDelta) : FileChange :=
  let ct : ChangeType :=
    match d.action with
    | MerkleAction.modify => ChangeType.update
    | MerkleAction.delete => ChangeType.delete
    | MerkleAction.insert => ChangeType.create
  { filepath := if ct = ChangeType.delete then d.fromName else d.toName
    changeType := ct }

/-- `Diff(from, to)`: compute both trees, diff them, classify each entry in
order. -/
def Diff (g : GitExt) (fromC toC : ObjCommit) : Except GitError CommitDiff :=
  match g.tree toC with
  | Except.error e => Except.error e
  | Except.ok toTree =>
  match g.tree fromC with
  | Except.error e => Except.error e
  | Except.ok fromTree =>
  match g.treeDiff fromTree toTree with
  | Except.error e => Except.error e
  | Except.ok diffs =>
      Except.ok { changes := diffs.map classifyDelta
                  fromCommit := ToInternal fromC
                  toCommit := ToInternal toC }

/-- The ref-scanning loop of `FetchLatestRemoteCommit`: first ref whose name
equals the branch ref resolves through `commitObject`; exhaustion is the
"commit for ref could not be found" error. -/
def findBranchCommit (g : GitExt) (branchRef : String) :
    List (String × String) → Except GitError ObjCommit
  | [] => Except.error (GitError.other "commit for ref could not be found")
  | (name, h) :: rest =>
      if name = branchRef then g.commitObject h
      else findBranchCommit g branchRef rest

/-- `FetchLatestRemoteCommit`: list the remote refs and resolve the commit of
`refs/heads/<branch>`. -/
def FetchLatestRemoteCommit (g : GitExt) (branch : String) :
    Except GitError ObjCommit :=
  match g.remoteRefs with
  | Except.error e => Except.error e
  | Except.ok rfs => findBranchCommit g ("refs/heads/" ++ branch) rfs

/-- The backward walk of `listCommits`: starting from `parent := to`, while
`parent.Hash != from.Hash` append `parent` and step to its first parent
(surfacing the traversal error); on exit append `from` and reverse.  `fuel`
bounds the number of iterations (the Go loop has no intrinsic bound; all
theorems below supply enough fuel for the chain at hand). -/
def listCommitsLoop (g : GitExt) (fromC : ObjCommit) :
    Nat → ObjCommit → List ObjCommit → Except GitError (List ObjCommit)
  | 0, _, _ => Except.error (GitError.other "walk did not terminate")
  | Nat.succ fuel, parent, cs =>
      if parent.hash = fromC.hash then
        Except.ok ((cs ++ [fromC]).reverse)
      else
        match g.parentsNext parent with
        | Except.error e => Except.error e
        | Except.ok p => listCommitsLoop g fromC fuel p (cs ++ [parent])

/-- `listCommits(from, to)`: the first-parent walk from `to` back to `from`,
returned oldest first. -/
def listCommits (g : GitExt) (fuel : Nat) (fromC toC : ObjCommit) :
    Except GitError (List ObjCommit) :=
  listCommitsLoop g fromC fuel toC []

/-- The diff-building loop of `DiffRemote`: `from := currentCommit`, then for
each commit of `commits[1:]` in order produce `Diff(from, to)` and advance
`from`.  (The Go code preallocates `len(commits)-1` slots and writes
`diffs[i-1]`; this recursion produces the same list in the same order with
the same error propagation.) -/
def buildDiffs (g : GitExt) :
    ObjCommit → List ObjCommit → Except GitError (List CommitDiff)
  | _, [] => Except.ok []
  | fromC, toC :: rest =>
      match Diff g fromC toC with
      | Except.error e => Except.error e
      | Except.ok d =>
          match buildDiffs g toC rest with
          | Except.error e => Except.error e
          | Except.ok ds => Except.ok (d :: ds)

/-- The body of `DiffRemote` after the fetch-error check: resolve local head
and latest remote commit, walk the ancestry, build one diff per adjacent
pair, then pull the worktree (any pull error — including go-git's
`NoErrAlreadyUpToDate` — is returned as is, unlike the fetch error). -/
def DiffRemoteAfterFetch (g : GitExt) (branch : String) (fuel : Nat) :
    Except GitError (List CommitDiff) :=
  match g.headHash with
  | Except.error e => Except.error e
  | Except.ok h =>
  match FetchLatestRemoteCommit g branch with
  | Except.error e => Except.error e
  | Except.ok remCommit =>
  match g.commitObject h with
  | Except.error e => Except.error e
  | Except.ok currentCommit =>
  match listCommits g fuel currentCommit remCommit with
  | Except.error e => Except.error e
  | Except.ok commits =>
  match buildDiffs g currentCommit (commits.drop 1) with
  | Except.error e => Except.error e
  | Except.ok diffs =>
  match g.worktreeErr with
  | some e => Except.error e
  | none =>
  match g.pullErr with
  | some e => Except.error e
  | none => Except.ok diffs

/-- `DiffRemote(repo, branch)` of the CommitDiff revision: fetch, tolerating
exactly `NoErrAlreadyUpToDate` (`if err != git.NoErrAlreadyUpToDate {
return nil, err }`), then the rest of the pipeline. -/
def DiffRemote (g : GitExt) (branch : String) (fuel : Nat) :
    Except GitError (List CommitDiff) :=
  match g.fetchErr with
  | some e =>
      if e = GitError.noErrAlreadyUpToDate then
        DiffRemoteAfterFetch g branch fuel
      else Except.error e
  | none => DiffRemoteAfterFetch g branch fuel

/-- A first-parent descent recognised by `listCommits`' loop: from `top`,
walking `parentsNext` reaches `c0`, collecting `down` (newest first), and no
intermediate commit shares `c0`'s hash (so the loop does not stop early). -/
inductive LoopWalk (g : GitExt) (c0 : ObjCommit) :
    ObjCommit → List ObjCommit → Prop
  | base : LoopWalk g c0 c0 []
  | step (c next : ObjCommit) (rest : List ObjCommit)
      (hne : c.hash ≠ c0.hash)
      (hp : g.parentsNext c = Except.ok next)
      (hrest : LoopWalk g c0 next rest) :
      LoopWalk g c0 c (c :: rest)

/-- Where a repository handle obtained from `Clone` is backed: the in-memory
storage/filesystem passed to `git.Clone`, or an on-disk repository opened by
`git.PlainOpen(directory)`. -/
inductive CloneStorage where
  | memory
  | plainDir (dir : String)
deriving DecidableEq, Repr

/-- The repository handle returned by `Clone`, abstracted to its backing
storage. -/
structure RepoModel where
  storage : CloneStorage
deriving DecidableEq, Repr

/-- Outcome of the external `git.Clone`/`git.PlainOpen` calls. -/
inductive CloneErr where
  | repositoryAlreadyExists
  | other (msg : String)
deriving DecidableEq, Repr

/-- External clone capability: `gitCloneMem url refName` is the outcome of
`git.Clone(memory.NewStorage(), memfs.New(), &CloneOptions{URL, RemoteName,
ReferenceName, Auth})` (a clone into fresh in-memory storage);
`plainOpen dir` is `git.PlainOpen(dir)`. -/
structure CloneExt where
  gitCloneMem : String → String → Except CloneErr Unit
  plainOpen : String → Except CloneErr RepoModel

/-- `Clone(remote, branch, directory)` of the CommitDiff revision
(src/unnamed/part_001 lines 251–266): clone into in-memory storage; on
`ErrRepositoryAlreadyExists` fall back to `PlainOpen(directory)`; any other
error is returned.  Note the configured `directory` is used only in the
fallback branch. -/
def Clone (ext : CloneExt) (remote branch directory : String) :
    Except CloneErr RepoModel :=
  match ext.gitCloneMem remote (newBranchReferenceName branch) with
  | Except.ok _ => Except.ok { storage := CloneStorage.memory }
  | Except.error CloneErr.repositoryAlreadyExists => ext.plainOpen directory
  | Except.error (CloneErr.other m) => Except.error (CloneErr.other m)

end DiffCore

namespace Gpoll

/-- `FileChange` as used by the poller file (src/gpoll.go, first file of the
blob): path and change type. -/
structure FileChange where
  filepath : String
  changeType : ChangeType
deriving DecidableEq, Repr

/-- `Commit` as used by that poller file (the git.go revision of the type):
the changes of the commit, its sha and UTC timestamp. -/
structure Commit where
  changes : List FileChange
  sha : String
  whenUTC : Int
deriving DecidableEq, Repr

/-- The poller configuration fields that `Poll` reads:
`config.FileChangeFilter` (optional) and `config.Git.CloneDirectory`. -/
structure PollCfg where
  fileChangeFilter : Option (FileChange → Bool)
  cloneDirectory : String

/-- `path.Join` on two segments, for the already-clean paths used here.
(Go's `path.Join` additionally cleans the result; the inputs in this
development contain no `.`/`..`/duplicate-separator segments, for which
joining is plain concatenation with a single separator.) -/
def pathJoin (a b : String) : String :=
  if a = "" then b else if b = "" then a else a ++ "/" ++ b

/-- Assignment `l[i].Filepath = fp` on a Go slice's backing array: replace
only the `Filepath` field of element `i`.  Out-of-range `i` is a no-op here;
the call sites below either guarantee `i` in range or perform the Go bounds
check themselves. -/
def setFilepath (l : List FileChange) (i : Nat) (fp : String) :
    List FileChange :=
  match l[i]? with
  | none => l
  | some e => l.set i { e with filepath := fp }

/-- The inner loop of `Poll` over one commit's change list
(src/gpoll.go lines 120–130), with Go slice semantics made explicit:

* `arr` is the contents of the commit's original `Changes` backing array —
  the `for i, c := range change.Changes` clause captured this slice once, so
  `c` is read from `arr` at every index, and the commit the caller sees at
  the end still has this array as its `Changes`;
* `cur` is what the local variable `change.Changes` currently denotes:
  `none` while it still aliases the original array, `some cs` after the
  filter branch reassigned it to a fresh `filteredChanges` slice `cs`;
* at each index, if a filter is configured, `filteredChanges` is rebuilt as
  `[c]` or `[]` and assigned to `change.Changes`; then
  `change.Changes[i].Filepath = path.Join(dir, c.Filepath)` executes — on
  the fresh slice this indexing is bounds-checked and a failure is Go's
  index-out-of-range panic, modelled as `none`;
* `k` counts remaining iterations, starting at the captured length
  `arr.length` (writes never change the length, so `i` stays within `arr`).

Returns the final contents of the original backing array (what the returned
`[]Commit` exposes), or `none` on panic. -/
def pollInnerGo (filter : Option (FileChange → Bool)) (dir : String) :
    List FileChange → Option (List FileChange) → Nat → Nat →
    Option (List FileChange)
  | arr, _, _, 0 => some arr
  | arr, cur, i, Nat.succ k =>
    match arr[i]? with
    | none => none
    | some c =>
      let cur2 : Option (List FileChange) :=
        match filter with
        | none => cur
        | some f => some (if f c then [c] else [])
      match cur2 with
      | none =>
          pollInnerGo filter dir
            (setFilepath arr i (pathJoin dir c.filepath)) none (i + 1) k
      | some cs =>
          if i < cs.length then
            pollInnerGo filter dir arr
              (some (setFilepath cs i (pathJoin dir c.filepath))) (i + 1) k
          else none

/-- One iteration of `Poll`'s outer loop for a single commit: run the inner
loop over the commit's change list. -/
def pollPerCommit (filter : Option (FileChange → Bool)) (dir : String)
    (changes0 : List FileChange) : Option (List FileChange) :=
  pollInnerGo filter dir changes0 none 0 changes0.length

/-- `Poll`'s outer loop over the commits returned by `DiffRemote`.  Each
`change` is a copy of the slice element, so the reassignments of
`change.Changes` inside the loop never reach the returned slice; what the
caller sees is each commit with the final contents of its original backing
array.  A panic in any iteration aborts `Poll` (modelled as `none`). -/
def pollLoop (filter : Option (FileChange → Bool)) (dir : String) :
    List Commit → Option (List Commit)
  | [] => some []
  | c :: rest =>
      match pollPerCommit filter dir c.changes with
      | none => none
      | some arr =>
          match pollLoop filter dir rest with
          | none => none
          | some cs => some ({ c with changes := arr } :: cs)

/-- Result of a call to `Poll`: a normal return, a returned error, or a
runtime panic. -/
inductive PollResult where
  | ok (cs : List Commit)
  | err (e : GitError)
  | panic
deriving DecidableEq, Repr

/-- `Poll` (src/gpoll.go lines 113–134): propagate a `DiffRemote` error;
otherwise, when the commit list is non-empty, run the filter-and-rewrite
loops and return the commits. -/
def Poll (cfg : PollCfg) (diffRemoteRes : Except GitError (List Commit)) :
    PollResult :=
  match diffRemoteRes with
  | Except.error e => PollResult.err e
  | Except.ok changes =>
      if changes.length > 0 then
        match pollLoop cfg.fileChangeFilter cfg.cloneDirectory changes with
        | none => PollResult.panic
        | some out => PollResult.ok out
      else PollResult.ok changes

/-- An event the tick loop can observe: a ticker fire (together with the
result that `Poll` produces on this tick) or a value on the closer channel. -/
inductive LoopEvent where
  | tick (pollRes : PollResult)
  | closeSignal

/-- One delivery performed by the loop body for one commit: the synchronous
`HandleCommit` call when a handler is configured, then the channel send. -/
structure Emission where
  handlerCalled : Bool
  sent : Commit
deriving DecidableEq, Repr

/-- The loop body's per-commit delivery sequence for a successful tick. -/
def emitAll (hasHandler : Bool) (cs : List Commit) : List Emission :=
  cs.map fun c => { handlerCalled := hasHandler, sent := c }

/-- The `loop` of src/gpoll.go lines 194–213 run over a finite schedule of
events, returning the ordered deliveries and whether the loop terminated:
a closer value stops the ticker and returns; a tick with a `Poll` error
`continue`s to the next event delivering nothing; a tick with commits
delivers each in order (handler, then send); a panicking `Poll` call kills
the goroutine (terminating with nothing delivered). -/
def loop (hasHandler : Bool) : List LoopEvent → List Emission × Bool
  | [] => ([], false)
  | LoopEvent.closeSignal :: _ => ([], true)
  | LoopEvent.tick (PollResult.err _) :: rest => loop hasHandler rest
  | LoopEvent.tick PollResult.panic :: _ => ([], true)
  | LoopEvent.tick (PollResult.ok cs) :: rest =>
      let p := loop hasHandler rest
      (emitAll hasHandler cs ++ p.1, p.2)

/-- An in-memory worktree for `filepath.Walk`: a file or a directory with its
entries (stored in the lexicographic name order that `readDirNames`
produces). -/
inductive FsEntry where
  | file (name : String)
  | dir (name : String) (children : List FsEntry)

/-- Name of a worktree entry. -/
def FsEntry.name : FsEntry → String
  | FsEntry.file n => n
  | FsEntry.dir n _ => n

/-- Whether a worktree entry is a directory (the `info.IsDir()` that
`filepath.Walk` consults when a walk function returns `SkipDir`). -/
def FsEntry.isDir : FsEntry → Bool
  | FsEntry.file _ => false
  | FsEntry.dir _ _ => true

/-- A component of a `path.Match` pattern: `*` (any run of non-separator
characters, possibly empty) or a literal component. -/
inductive PatComp where
  | star
  | lit (s : String)

/-- Split a path on `/` (the behaviour of `String.splitOn "/"`, implemented
by structural recursion over the characters so that it evaluates inside the
kernel). -/
def splitSlashAux : List Char → List Char → List String
  | [], acc => [String.mk acc.reverse]
  | ch :: rest, acc =>
      if ch = '/' then String.mk acc.reverse :: splitSlashAux rest []
      else splitSlashAux rest (ch :: acc)

/-- Split a path string into its `/`-separated components. -/
def splitSlash (s : String) : List String :=
  splitSlashAux s.data []

/-- `filepath.Match` restricted to the patterns the source builds
(`*/.git` and `*/.git/*`), whose components are either `*` or a literal with
no metacharacters: the pattern matches iff it has exactly as many
`/`-separated components as the name and each component matches (`*` never
crosses a separator). -/
def goMatch (pat : List PatComp) (name : String) : Bool :=
  let comps := splitSlash name
  pat.length = comps.length &&
    (List.zip pat comps).all fun pc =>
      match pc.1 with
      | PatComp.star => true
      | PatComp.lit l => l = pc.2

/-- `gitDir := path.Join("*", ".git")`, i.e. the pattern `*/.git`. -/
def gitDirPat : List PatComp := [PatComp.star, PatComp.lit ".git"]

/-- `path.Join(gitDir, "*")`, i.e. the pattern `*/.git/*`. -/
def gitDirStarPat : List PatComp :=
  [PatComp.star, PatComp.lit ".git", PatComp.star]

/-- The walk function passed to `filepath.Walk` by `onStart`
(src/gpoll.go lines 150–166), for a visit of path `fp` with accumulated
`changes`: if the path matches `*/.git/*` or `*/.git`, return `SkipDir`
(`true`); otherwise append an `Init`-typed `FileChange` for it.  (The
`err != nil` guard never fires for the error-free in-memory worktree.) -/
def onStartVisit (fp : String) (changes : List FileChange) :
    List FileChange × Bool :=
  let isInGitDir := goMatch gitDirStarPat fp
  let isGitDir := goMatch gitDirPat fp
  if isInGitDir || isGitDir then (changes, true)
  else (changes ++ [{ filepath := fp, changeType := ChangeType.init }], false)

/-- State of the walk over one directory's children: accumulated changes,
whether the remaining siblings are to be skipped, and whether a `SkipDir`
from a non-directory is propagating to the caller. -/
structure WalkSt where
  acc : List FileChange
  stopped : Bool
  propagate : Bool

/-- `filepath.Walk` semantics for `onStart`'s walk function, on the in-memory
worktree.  Returns the accumulated changes and whether this subtree's walk
returned the `SkipDir` error to its caller.  Per Go's `filepath.walk`:
`SkipDir` from a directory visit skips that directory's contents and
continues; `SkipDir` from a file visit skips the remainder of the containing
directory and propagates upward until a directory level swallows it.  `fuel`
bounds the recursion depth (the concrete worktrees below are finite trees;
enough fuel is always supplied). -/
def walkEntry : Nat → FsEntry → String → List FileChange →
    List FileChange × Bool
  | 0, _, _, acc => (acc, false)
  | Nat.succ _, FsEntry.file _, fp, acc => onStartVisit fp acc
  | Nat.succ fuel, FsEntry.dir _ children, fp, acc =>
      let p := onStartVisit fp acc
      if p.2 then (p.1, false)
      else
        let st := children.foldl
          (fun (st : WalkSt) c =>
            if st.stopped then st
            else
              let q := walkEntry fuel c (pathJoin fp c.name) st.acc
              if q.2 then
                if c.isDir then { st with acc := q.1 }
                else { acc := q.1, stopped := true, propagate := true }
              else { st with acc := q.1 })
          { acc := p.1, stopped := false, propagate := false }
        (st.acc, st.propagate)

/-- `onStart` (src/gpoll.go lines 140–176): nothing to do without a handler;
otherwise resolve the head commit, walk the clone directory collecting one
`Init`-typed `FileChange` per visited path (with the `*/.git` skip logic),
and invoke `HandleCommit` once with a `Commit` carrying those changes and
the head commit's sha and UTC timestamp.  The result records the single
handler invocation (`some commitBundle`) or its absence (`none`). -/
def onStart (hasHandler : Bool) (headRes : Except GitError ObjCommit)
    (cloneDir : String) (root : FsEntry) (fuel : Nat) :
    Except GitError (Option Commit) :=
  if hasHandler = false then Except.ok none
  else
    match headRes with
    | Except.error e => Except.error e
    | Except.ok commit =>
        let w := walkEntry fuel root cloneDir []
        Except.ok (some { changes := w.1
                          sha := commit.hash
                          whenUTC := commit.whenUTC })

end Gpoll

namespace Auth

/-- go-git transport auth methods constructed by the source:
`http.BasicAuth{Username, Password}` or `gitssh.PublicKeys` (user "git" plus
the signer parsed from the key file). -/
inductive AuthMethod where
  | basicAuth (username password : String)
  | publicKeys (user signer : String)
deriving DecidableEq, Repr

/-- `GitAuthConfig`: SSH key path, username, password.  (The struct's tags
are spelled `validation:"..."`, not `validate:"..."`, so the
go-playground validator consulted by `NewPoller` never sees them.) -/
structure GitAuthConfig where
  sshKey : String
  username : String
  password : String
deriving DecidableEq, Repr

/-- `usernamePassword`: always succeeds, with whatever strings were given. -/
def usernamePassword (username password : String) :
    Except String AuthMethod :=
  Except.ok (AuthMethod.basicAuth username password)

/-- `toAuthMethod` (src/git_mock.go second file, lines 75–81): if `SshKey` is
non-empty use `sshKeyFromFile` (home expansion, file read and key parse —
external I/O abstracted as `loadSshKey`); otherwise username/password.
No branch compares the two forms against each other. -/
def toAuthMethod (loadSshKey : String → Except String AuthMethod)
    (config : GitAuthConfig) : Except String AuthMethod :=
  if config.sshKey ≠ "" then loadSshKey config.sshKey
  else usernamePassword config.username config.password

end Auth

/-
Concrete environments used by the witness and evaluation theorems below.
-/

namespace DiffCore

/-- Local head of the three-commit scenario (history a → b → c). -/
def c0W : ObjCommit := ⟨"a", "an", "ae", 1, "m0"⟩

/-- Middle commit of the scenario. -/
def c1W : ObjCommit := ⟨"b", "bn", "be", 2, "m1"⟩

/-- Remote head of the scenario. -/
def c2W : ObjCommit := ⟨"c", "cn", "ce", 3, "m2"⟩

/-- Commit lookup by hash for the scenario. -/
def objOf (h : String) : Except GitError ObjCommit :=
  if h = "a" then Except.ok c0W
  else if h = "b" then Except.ok c1W
  else if h = "c" then Except.ok c2W
  else Except.error (GitError.other "object not found")

/-- A well-behaved environment: local head `a`, remote branch head `c`,
first-parent chain c → b → a, one insertion per tree diff, pull succeeding. -/
def gW : GitExt :=
  { fetchErr := none
    headHash := Except.ok "a"
    remoteRefs := Except.ok [("refs/heads/master", "c")]
    commitObject := objOf
    parentsNext := fun c =>
      if c.hash = "c" then Except.ok c1W
      else if c.hash = "b" then Except.ok c0W
      else Except.error (GitError.other "eof")
    tree := fun c => Except.ok ⟨c.whenUTC.toNat⟩
    treeDiff := fun _ t2 =>
      Except.ok [⟨MerkleAction.insert, "", "f" ++ toString t2.id⟩]
    worktreeErr := none
    pullErr := none }

/-- The same repository with no new remote commits: the remote branch head is
the local head `a`, fetch reports `NoErrAlreadyUpToDate`, and — as go-git's
`Worktree.Pull` does when the worktree is already current — the pull also
reports `NoErrAlreadyUpToDate`. -/
def gUp : GitExt :=
  { gW with fetchErr := some GitError.noErrAlreadyUpToDate
            remoteRefs := Except.ok [("refs/heads/master", "a")]
            pullErr := some GitError.noErrAlreadyUpToDate }

/-- A tree diff exercising all three merkletrie actions. -/
def deltas3 : List TreeDelta :=
  [⟨MerkleAction.modify, "mod-from", "mod-to"⟩,
   ⟨MerkleAction.insert, "ins-from", "ins-to"⟩,
   ⟨MerkleAction.delete, "del-from", "del-to"⟩]

/-- Environment whose tree diffs are `deltas3`. -/
def g3 : GitExt := { gW with treeDiff := fun _ _ => Except.ok deltas3 }

/-- External clone capability whose in-memory clone succeeds. -/
def cloneExtW : CloneExt :=
  { gitCloneMem := fun _ _ => Except.ok ()
    plainOpen := fun d => Except.ok { storage := CloneStorage.plainDir d } }

/-- External clone capability reporting `ErrRepositoryAlreadyExists`. -/
def cloneExtExistsW : CloneExt :=
  { gitCloneMem := fun _ _ => Except.error CloneErr.repositoryAlreadyExists
    plainOpen := fun d => Except.ok { storage := CloneStorage.plainDir d } }

end DiffCore

namespace Gpoll

/-- A filter configuration accepting every change. -/
def cfgAcceptW : PollCfg := ⟨some fun _ => true, "/clone"⟩

/-- A filter configuration rejecting every change. -/
def cfgRejectW : PollCfg := ⟨some fun _ => false, "/clone"⟩

/-- A one-commit, one-change `DiffRemote` result. -/
def oneChangeCommitW : Commit :=
  ⟨[⟨"f1", ChangeType.update⟩], "abc", 0⟩

/-- A one-commit, two-change `DiffRemote` result. -/
def twoChangeCommitW : Commit :=
  ⟨[⟨"f1", ChangeType.update⟩, ⟨"f2", ChangeType.create⟩], "abc", 0⟩

/-- Input list for the order/type-preservation witness. -/
def inp5W : List Commit := [⟨[⟨"f", ChangeType.update⟩], "s", 7⟩]

/-- Worktree of a fresh clone: `.git` (containing `config`) and `a.txt`,
in the lexicographic order `filepath.Walk` visits them. -/
def repoTreeW : FsEntry :=
  FsEntry.dir "repo" [FsEntry.dir ".git" [FsEntry.file "config"],
                      FsEntry.file "a.txt"]

/-- Head commit of the freshly cloned repository. -/
def headW : ObjCommit := ⟨"h", "hn", "he", 5, "hm"⟩

end Gpoll

namespace Auth

/-- An SSH key loader that succeeds (the key file exists and parses). -/
def loadOkW : String → Except String AuthMethod :=
  fun _ => Except.ok (AuthMethod.publicKeys "git" "signer")

/-- Contradictory configuration: both an SSH key and username/password. -/
def cfgBothW : GitAuthConfig := ⟨"~/.ssh/id_rsa", "user", "pass"⟩

/-- Missing configuration: neither an SSH key nor username/password. -/
def cfgNeitherW : GitAuthConfig := ⟨"", "", ""⟩

end Auth

/-
Theorems.  Everything below is stated over the embedded definitions above.
-/

/-- The backward walk of `listCommits` follows a `LoopWalk` descent exactly:
starting from `top` it collects `down` (newest first), appends the target,
and reverses, given enough fuel for the chain. -/
theorem DiffCore.listCommitsLoop_walk (g : DiffCore.GitExt)
    (c0 top : ObjCommit) (down : List ObjCommit)
    (hwalk : DiffCore.LoopWalk g c0 top down) :
    ∀ fuel, down.length + 1 ≤ fuel → ∀ acc,
      DiffCore.listCommitsLoop g c0 fuel top acc =
        Except.ok ((acc ++ (down ++ [c0])).reverse) := by
  induction hwalk with
  | base =>
      intro fuel hf acc
      cases fuel with
      | zero => omega
      | succ f => simp [DiffCore.listCommitsLoop]
  | step c next rest hne hp _ ih =>
      intro fuel hf acc
      cases fuel with
      | zero => simp at hf
      | succ f =>
          have hf2 : rest.length + 1 ≤ f := by
            simp only [List.length_cons] at hf; omega
          simp only [DiffCore.listCommitsLoop, hne, if_false, hp,
            ih f hf2 (acc ++ [c])]
          simp [List.append_assoc]

/-- `listCommits` returns the walked chain oldest first. -/
theorem DiffCore.listCommits_walk (g : DiffCore.GitExt)
    (c0 top : ObjCommit) (down : List ObjCommit) (fuel : Nat)
    (hwalk : DiffCore.LoopWalk g c0 top down)
    (hfuel : down.length + 1 ≤ fuel) :
    DiffCore.listCommits g fuel c0 top = Except.ok (c0 :: down.reverse) := by
  unfold DiffCore.listCommits
  rw [DiffCore.listCommitsLoop_walk g c0 top down hwalk fuel hfuel []]
  simp

/-- When every tree resolves and every tree diff succeeds, `Diff` succeeds on
every pair of commits. -/
theorem DiffCore.Diff_total (g : DiffCore.GitExt)
    (htree : ∀ c, ∃ t, g.tree c = Except.ok t)
    (htd : ∀ t1 t2, ∃ l, g.treeDiff t1 t2 = Except.ok l) :
    ∀ a b, ∃ d, DiffCore.Diff g a b = Except.ok d := by
  intro a b
  obtain ⟨tb, htb⟩ := htree b
  obtain ⟨ta, hta⟩ := htree a
  obtain ⟨l, hl⟩ := htd ta tb
  refine ⟨{ changes := l.map DiffCore.classifyDelta
            fromCommit := DiffCore.ToInternal a
            toCommit := DiffCore.ToInternal b }, ?_⟩
  simp only [DiffCore.Diff, htb, hta, hl]

/-- The diff-building loop produces exactly one diff per element of
`commits[1:]`, each one the `Diff` of the adjacent pair it came from. -/
theorem DiffCore.buildDiffs_adjacent (g : DiffCore.GitExt)
    (hDiff : ∀ a b, ∃ d, DiffCore.Diff g a b = Except.ok d) :
    ∀ (ts : List ObjCommit) (fromC : ObjCommit),
      ∃ ds, DiffCore.buildDiffs g fromC ts = Except.ok ds ∧
        ds.length = ts.length ∧
        ∀ (i : Nat) (a b : ObjCommit) (d : DiffCore.CommitDiff),
          (fromC :: ts)[i]? = some a → ts[i]? = some b →
          ds[i]? = some d → DiffCore.Diff g a b = Except.ok d := by
  intro ts
  induction ts with
  | nil =>
      intro fromC
      refine ⟨[], rfl, rfl, ?_⟩
      intro i a b d _ hb _
      simp at hb
  | cons toC rest ih =>
      intro fromC
      obtain ⟨d0, hd0⟩ := hDiff fromC toC
      obtain ⟨ds', h1, h2, h3⟩ := ih toC
      refine ⟨d0 :: ds', ?_, by simp [h2], ?_⟩
      · simp only [DiffCore.buildDiffs, hd0, h1]
      · intro i a b d ha hb hd
        cases i with
        | zero =>
            simp only [List.getElem?_cons_zero, Option.some.injEq] at ha hb hd
            subst ha; subst hb; subst hd
            exact hd0
        | succ j =>
            simp only [List.getElem?_cons_succ] at ha hb hd
            exact h3 j a b d ha hb hd

/-- C1: for every poll in which the remote branch head is ahead of the local
head by N commits along first-parent ancestry (`LoopWalk` lists those N
commits newest first), `DiffRemote` returns exactly N `CommitDiff`s, ordered
oldest first, the i-th being the `Diff` of adjacent commits i and i+1 of the
walked list `c0 :: down.reverse` = `[localHead, c1, ..., remoteHead]` — no
multi-commit squash and no overlap between steps. -/
theorem diffRemote_returns_one_diff_per_new_commit
    (g : DiffCore.GitExt) (branch h0 : String) (c0 remoteHead : ObjCommit)
    (down : List ObjCommit) (n fuel : Nat)
    (hN : down.length = n)
    (hwalk : DiffCore.LoopWalk g c0 remoteHead down)
    (hfetch : g.fetchErr = none ∨
      g.fetchErr = some GitError.noErrAlreadyUpToDate)
    (hhead : g.headHash = Except.ok h0)
    (hobj : g.commitObject h0 = Except.ok c0)
    (href : DiffCore.FetchLatestRemoteCommit g branch = Except.ok remoteHead)
    (htree : ∀ c, ∃ t, g.tree c = Except.ok t)
    (htd : ∀ t1 t2, ∃ l, g.treeDiff t1 t2 = Except.ok l)
    (hwt : g.worktreeErr = none)
    (hpull : g.pullErr = none)
    (hfuel : n + 1 ≤ fuel) :
    ∃ ds, DiffCore.DiffRemote g branch fuel = Except.ok ds ∧
      ds.length = n ∧
      ∀ (i : Nat) (a b : ObjCommit) (d : DiffCore.CommitDiff),
        (c0 :: down.reverse)[i]? = some a →
        down.reverse[i]? = some b → ds[i]? = some d →
        DiffCore.Diff g a b = Except.ok d := by
  have hlist : DiffCore.listCommits g fuel c0 remoteHead =
      Except.ok (c0 :: down.reverse) :=
    DiffCore.listCommits_walk g c0 remoteHead down fuel hwalk (by omega)
  obtain ⟨ds, hbd, hlen, hadj⟩ :=
    DiffCore.buildDiffs_adjacent g (DiffCore.Diff_total g htree htd)
      down.reverse c0
  refine ⟨ds, ?_, by rw [hlen, List.length_reverse, hN], hadj⟩
  have hafter : DiffCore.DiffRemoteAfterFetch g branch fuel =
      Except.ok ds := by
    simp only [DiffCore.DiffRemoteAfterFetch, hhead, href, hobj, hlist,
      List.drop_succ_cons, List.drop_zero, hbd, hwt, hpull]
  unfold DiffCore.DiffRemote
  rcases hfetch with h | h <;> rw [h] <;> simp [hafter]

/-- Witness for C1: the concrete three-commit environment `gW` (remote two
commits ahead) yields exactly two adjacent diffs. -/
theorem diffRemote_returns_one_diff_per_new_commit_witness :
    ∃ ds, DiffCore.DiffRemote DiffCore.gW "master" 3 = Except.ok ds ∧
      ds.length = 2 ∧
      ∀ (i : Nat) (a b : ObjCommit) (d : DiffCore.CommitDiff),
        (DiffCore.c0W :: [DiffCore.c2W, DiffCore.c1W].reverse)[i]? = some a →
        [DiffCore.c2W, DiffCore.c1W].reverse[i]? = some b →
        ds[i]? = some d → DiffCore.Diff DiffCore.gW a b = Except.ok d :=
  diffRemote_returns_one_diff_per_new_commit DiffCore.gW "master" "a"
    DiffCore.c0W DiffCore.c2W [DiffCore.c2W, DiffCore.c1W] 2 3
    rfl
    (DiffCore.LoopWalk.step _ _ _ (by decide) rfl
      (DiffCore.LoopWalk.step _ _ _ (by decide) rfl
        DiffCore.LoopWalk.base))
    (Or.inl rfl) rfl rfl rfl
    (fun c => ⟨⟨c.whenUTC.toNat⟩, rfl⟩)
    (fun _ _ => ⟨_, rfl⟩)
    rfl rfl (by decide)

/-- C2: evaluated at the up-to-date environment `gUp` (local head equals the
remote branch head, so the ancestry walk yields only the head and zero diffs
are computed, and — per go-git — `Worktree.Pull` reports
`NoErrAlreadyUpToDate`), `DiffRemote` returns that sentinel as an error
instead of the empty list: the fetch branch whitelists the sentinel but the
pull branch returns it unfiltered, so `Poll` surfaces an error on a
no-new-commits tick. -/
theorem diffRemote_up_to_date_poll_returns_error :
    DiffCore.DiffRemote DiffCore.gUp "master" 1 =
        Except.error GitError.noErrAlreadyUpToDate ∧
      DiffCore.listCommits DiffCore.gUp 1 DiffCore.c0W DiffCore.c0W =
        Except.ok [DiffCore.c0W] ∧
      Except.error GitError.noErrAlreadyUpToDate ≠
        (Except.ok [] : Except GitError (List DiffCore.CommitDiff)) :=
  ⟨rfl, rfl, by simp⟩

/-- C3: whenever `Diff` succeeds on a commit pair whose tree diff is `ds`,
the i-th `FileChange` classifies the i-th delta as the source's switch does
— Modify ↦ Update, Insert ↦ Create, Delete ↦ Delete — and a Delete-typed
change takes its path from the `from` side while every other change takes it
from the `to` side. -/
theorem diff_classifies_tree_deltas
    (g : DiffCore.GitExt) (fromC toC : ObjCommit) (ft tt : GitTree)
    (ds : List TreeDelta) (cd : DiffCore.CommitDiff)
    (h1 : g.tree toC = Except.ok tt) (h2 : g.tree fromC = Except.ok ft)
    (h3 : g.treeDiff ft tt = Except.ok ds)
    (hok : DiffCore.Diff g fromC toC = Except.ok cd) :
    cd.changes.length = ds.length ∧
      ∀ (i : Nat) (d : TreeDelta) (fc : DiffCore.FileChange),
        ds[i]? = some d → cd.changes[i]? = some fc →
        (d.action = MerkleAction.modify →
          fc.changeType = ChangeType.update) ∧
        (d.action = MerkleAction.insert →
          fc.changeType = ChangeType.create) ∧
        (d.action = MerkleAction.delete →
          fc.changeType = ChangeType.delete) ∧
        (fc.changeType = ChangeType.delete → fc.filepath = d.fromName) ∧
        (fc.changeType ≠ ChangeType.delete → fc.filepath = d.toName) := by
  have hcd : cd.changes = ds.map DiffCore.classifyDelta := by
    simp only [DiffCore.Diff, h1, h2, h3] at hok
    cases hok
    rfl
  constructor
  · rw [hcd, List.length_map]
  · intro i d fc hd hfc
    rw [hcd, List.getElem?_map, hd] at hfc
    have hfc2 : DiffCore.classifyDelta d = fc := by simpa using hfc
    subst hfc2
    cases d with
    | mk action fromName toName =>
        cases action <;>
          simp [DiffCore.classifyDelta]

/-- Witness for C3: the environment `g3`, whose tree diff exercises all three
actions, instantiates the classification theorem. -/
theorem diff_classifies_tree_deltas_witness :
    (DiffCore.Diff DiffCore.g3 DiffCore.c0W DiffCore.c1W =
        Except.ok
          { changes := DiffCore.deltas3.map DiffCore.classifyDelta
            fromCommit := DiffCore.ToInternal DiffCore.c0W
            toCommit := DiffCore.ToInternal DiffCore.c1W }) ∧
    ((DiffCore.deltas3.map DiffCore.classifyDelta).length =
        DiffCore.deltas3.length ∧
      ∀ (i : Nat) (d : TreeDelta) (fc : DiffCore.FileChange),
        DiffCore.deltas3[i]? = some d →
        (DiffCore.deltas3.map DiffCore.classifyDelta)[i]? = some fc →
        (d.action = MerkleAction.modify →
          fc.changeType = ChangeType.update) ∧
        (d.action = MerkleAction.insert →
          fc.changeType = ChangeType.create) ∧
        (d.action = MerkleAction.delete →
          fc.changeType = ChangeType.delete) ∧
        (fc.changeType = ChangeType.delete → fc.filepath = d.fromName) ∧
        (fc.changeType ≠ ChangeType.delete → fc.filepath = d.toName)) :=
  ⟨rfl,
    diff_classifies_tree_deltas DiffCore.g3 DiffCore.c0W DiffCore.c1W
      ⟨1⟩ ⟨2⟩ DiffCore.deltas3 _ rfl rfl rfl rfl⟩

/-- C9: evaluated at a successful clone, `Clone` of the CommitDiff revision
returns a repository backed by the in-memory storage passed to `git.Clone`,
not one in the configured clone directory (which differs from the in-memory
backing); the configured directory is consulted only when the clone reports
`ErrRepositoryAlreadyExists`, in which case the existing repository at that
path is opened. -/
theorem clone_targets_memory_not_configured_directory :
    DiffCore.Clone DiffCore.cloneExtW "git@github.com:eddieowens/gpoll.git"
        "master" "/tmp/repo" =
      Except.ok { storage := DiffCore.CloneStorage.memory } ∧
    DiffCore.CloneStorage.memory ≠ DiffCore.CloneStorage.plainDir "/tmp/repo" ∧
    DiffCore.Clone DiffCore.cloneExtExistsW
        "git@github.com:eddieowens/gpoll.git" "master" "/tmp/repo" =
      Except.ok { storage := DiffCore.CloneStorage.plainDir "/tmp/repo" } :=
  ⟨rfl, by simp, rfl⟩

/-- `setFilepath` never changes the length of the array. -/
theorem Gpoll.setFilepath_length (l : List Gpoll.FileChange) (i : Nat)
    (fp : String) : (Gpoll.setFilepath l i fp).length = l.length := by
  unfold Gpoll.setFilepath
  cases h : l[i]? with
  | none => rfl
  | some e => simp

/-- `setFilepath` preserves each element's `changeType` pointwise. -/
theorem Gpoll.setFilepath_changeType (l : List Gpoll.FileChange) (i : Nat)
    (fp : String) :
    ∀ (j : Nat) (a b : Gpoll.FileChange), l[j]? = some a →
      (Gpoll.setFilepath l i fp)[j]? = some b →
      b.changeType = a.changeType := by
  intro j a b ha hb
  unfold Gpoll.setFilepath at hb
  cases h : l[i]? with
  | none => rw [h, ha] at hb; cases hb; rfl
  | some e =>
      rw [h] at hb
      have hi : i < l.length := (List.getElem?_eq_some.mp h).1
      by_cases hij : i = j
      · subst hij
        rw [List.getElem?_set_eq_of_lt _ hi] at hb
        cases hb
        rw [h] at ha
        cases ha
        rfl
      · rw [List.getElem?_set_ne hij, ha] at hb
        cases hb
        rfl

/-- Pointwise `changeType` preservation composes. -/
theorem Gpoll.changeType_pointwise_trans
    (l1 l2 l3 : List Gpoll.FileChange)
    (hlen : l2.length = l1.length)
    (h12 : ∀ (j : Nat) (a b : Gpoll.FileChange), l1[j]? = some a →
      l2[j]? = some b → b.changeType = a.changeType)
    (h23 : ∀ (j : Nat) (a b : Gpoll.FileChange), l2[j]? = some a →
      l3[j]? = some b → b.changeType = a.changeType) :
    ∀ (j : Nat) (a b : Gpoll.FileChange), l1[j]? = some a →
      l3[j]? = some b → b.changeType = a.changeType := by
  intro j a b ha hb
  have hj : j < l1.length := by
    obtain ⟨hlt, -⟩ := List.getElem?_eq_some.mp ha
    exact hlt
  have hj2 : j < l2.length := by omega
  have hm : l2[j]? = some l2[j] := List.getElem?_eq_getElem hj2
  exact (h23 j _ b hm hb).trans (h12 j a _ ha hm)

/-- When the inner loop of `Poll` returns without panicking, the final
contents of the commit's backing array have the same length as before and
each element keeps its original `changeType`: the loop writes only `Filepath`
fields, whether through the alias or into a reassigned fresh slice. -/
theorem Gpoll.pollInnerGo_preserves
    (filter : Option (Gpoll.FileChange → Bool)) (dir : String) :
    ∀ (k : Nat) (arr : List Gpoll.FileChange)
      (cur : Option (List Gpoll.FileChange)) (i : Nat)
      (res : List Gpoll.FileChange),
      Gpoll.pollInnerGo filter dir arr cur i k = some res →
      res.length = arr.length ∧
        ∀ (j : Nat) (a b : Gpoll.FileChange), arr[j]? = some a →
          res[j]? = some b → b.changeType = a.changeType := by
  intro k
  induction k with
  | zero =>
      intro arr cur i res h
      unfold Gpoll.pollInnerGo at h
      cases h
      refine ⟨rfl, ?_⟩
      intro j a b ha hb
      rw [ha] at hb
      cases hb
      rfl
  | succ k ih =>
      intro arr cur i res h
      unfold Gpoll.pollInnerGo at h
      cases harr : arr[i]? with
      | none =>
          simp only [harr] at h
          exact Option.noConfusion h
      | some c =>
          cases filter with
          | none =>
              cases cur with
              | none =>
                  simp only [harr] at h
                  obtain ⟨hl, hp⟩ := ih _ _ _ _ h
                  refine ⟨hl.trans (Gpoll.setFilepath_length arr i _), ?_⟩
                  exact Gpoll.changeType_pointwise_trans arr _ res
                    (Gpoll.setFilepath_length arr i _)
                    (Gpoll.setFilepath_changeType arr i _) hp
              | some cs =>
                  simp only [harr] at h
                  by_cases hb : i < cs.length
                  · rw [if_pos hb] at h
                    exact ih _ _ _ _ h
                  · rw [if_neg hb] at h
                    cases h
          | some f =>
              simp only [harr] at h
              by_cases hb : i < (if f c = true then [c] else []).length
              · rw [if_pos hb] at h
                exact ih _ _ _ _ h
              · rw [if_neg hb] at h
                cases h

/-- `Poll`'s outer loop preserves, commit by commit, the sha, the timestamp,
the number of changes and each change's `changeType`. -/
theorem Gpoll.pollLoop_preserves
    (filter : Option (Gpoll.FileChange → Bool)) (dir : String) :
    ∀ (cs out : List Gpoll.Commit),
      Gpoll.pollLoop filter dir cs = some out →
      out.length = cs.length ∧
        ∀ (j : Nat) (cin cout : Gpoll.Commit), cs[j]? = some cin →
          out[j]? = some cout →
          cout.sha = cin.sha ∧ cout.whenUTC = cin.whenUTC ∧
            cout.changes.length = cin.changes.length ∧
            ∀ (i : Nat) (a b : Gpoll.FileChange),
              cin.changes[i]? = some a → cout.changes[i]? = some b →
              b.changeType = a.changeType := by
  intro cs
  induction cs with
  | nil =>
      intro out h
      unfold Gpoll.pollLoop at h
      cases h
      refine ⟨rfl, ?_⟩
      intro j cin cout hc
      simp at hc
  | cons c rest ih =>
      intro out h
      unfold Gpoll.pollLoop at h
      cases hpc : Gpoll.pollPerCommit filter dir c.changes with
      | none => rw [hpc] at h; cases h
      | some arr =>
          rw [hpc] at h
          cases hpl : Gpoll.pollLoop filter dir rest with
          | none => rw [hpl] at h; cases h
          | some cs' =>
              rw [hpl] at h
              cases h
              obtain ⟨hl, hp⟩ := ih cs' hpl
              obtain ⟨hal, hap⟩ :=
                Gpoll.pollInnerGo_preserves filter dir c.changes.length
                  c.changes none 0 arr hpc
              constructor
              · simp [hl]
              · intro j cin cout hc hcout
                cases j with
                | zero =>
                    simp only [List.getElem?_cons_zero,
                      Option.some.injEq] at hc hcout
                    subst hc
                    subst hcout
                    exact ⟨rfl, rfl, hal, hap⟩
                | succ m =>
                    simp only [List.getElem?_cons_succ] at hc hcout
                    exact hp m cin cout hc hcout

/-- C5: whenever `Poll` returns normally, the commits it returns correspond
positionally to the commits `DiffRemote` produced — same sha and timestamp
(so every change stays associated with its own commit), same number of
changes in the same relative order, and every change keeps its original
`changeType`.  (The filter stage never removes, reorders or retypes a change
in the returned slice; the only field the loops write is `Filepath`.) -/
theorem poll_preserves_order_type_and_association
    (cfg : Gpoll.PollCfg) (inp out : List Gpoll.Commit)
    (h : Gpoll.Poll cfg (Except.ok inp) = Gpoll.PollResult.ok out) :
    out.length = inp.length ∧
      ∀ (j : Nat) (cin cout : Gpoll.Commit), inp[j]? = some cin →
        out[j]? = some cout →
        cout.sha = cin.sha ∧ cout.whenUTC = cin.whenUTC ∧
          cout.changes.length = cin.changes.length ∧
          ∀ (i : Nat) (a b : Gpoll.FileChange),
            cin.changes[i]? = some a → cout.changes[i]? = some b →
            b.changeType = a.changeType := by
  simp only [Gpoll.Poll] at h
  by_cases hlen : inp.length > 0
  · rw [if_pos hlen] at h
    cases hpl : Gpoll.pollLoop cfg.fileChangeFilter cfg.cloneDirectory inp with
    | none => rw [hpl] at h; cases h
    | some out' =>
        rw [hpl] at h
        cases h
        exact Gpoll.pollLoop_preserves cfg.fileChangeFilter
          cfg.cloneDirectory inp out hpl
  · rw [if_neg hlen] at h
    cases h
    have : inp = [] := List.length_eq_zero.mp (by omega)
    subst this
    refine ⟨rfl, ?_⟩
    intro j cin cout hc
    simp at hc

/-- Witness for C5: a one-commit, one-change input under an accept-all
filter, where `Poll` returns normally. -/
theorem poll_preserves_order_type_and_association_witness :
    Gpoll.inp5W.length = Gpoll.inp5W.length ∧
      ∀ (j : Nat) (cin cout : Gpoll.Commit), Gpoll.inp5W[j]? = some cin →
        Gpoll.inp5W[j]? = some cout →
        cout.sha = cin.sha ∧ cout.whenUTC = cin.whenUTC ∧
          cout.changes.length = cin.changes.length ∧
          ∀ (i : Nat) (a b : Gpoll.FileChange),
            cin.changes[i]? = some a → cout.changes[i]? = some b →
            b.changeType = a.changeType :=
  poll_preserves_order_type_and_association
    ⟨some fun _ => true, "/clone"⟩ Gpoll.inp5W Gpoll.inp5W rfl

/-- C4: evaluated at a commit whose only change the configured filter
rejects, `Poll` does not return that commit with an emptied change list — it
panics: the loop reassigns `change.Changes` to the empty `filteredChanges`
slice and then indexes `change.Changes[0]`. -/
theorem poll_panics_when_filter_rejects_all_changes :
    Gpoll.Poll Gpoll.cfgRejectW (Except.ok [Gpoll.oneChangeCommitW]) =
        Gpoll.PollResult.panic ∧
      Gpoll.PollResult.panic ≠
        Gpoll.PollResult.ok [{ Gpoll.oneChangeCommitW with changes := [] }] :=
  ⟨rfl, by simp⟩

/-- C10: evaluated at a commit with two changes, both accepted by the
configured filter, `Poll` still panics with an index out of range: at index
1 the loop reassigns `change.Changes` to the one-element `filteredChanges`
slice and then indexes `change.Changes[1]`.  The filter-and-rewrite stage
does access an out-of-bounds index on ordinary successful `DiffRemote`
results. -/
theorem poll_filter_stage_accesses_out_of_bounds_index :
    Gpoll.Poll Gpoll.cfgAcceptW (Except.ok [Gpoll.twoChangeCommitW]) =
        Gpoll.PollResult.panic ∧
      Gpoll.Poll Gpoll.cfgAcceptW (Except.ok [Gpoll.oneChangeCommitW]) =
        Gpoll.PollResult.ok [Gpoll.oneChangeCommitW] :=
  ⟨rfl, rfl⟩

/-- C6: a tick on which `Poll` returns an error delivers nothing — the run
over the remaining schedule is unchanged, so no handler call and no channel
send happens for that tick — and with no further events the loop is still
running (not terminated): a `Poll` error is never fatal to the loop. -/
theorem loop_skips_tick_on_poll_error (hasHandler : Bool) (e : GitError)
    (evs : List Gpoll.LoopEvent) :
    Gpoll.loop hasHandler
        (Gpoll.LoopEvent.tick (Gpoll.PollResult.err e) :: evs) =
      Gpoll.loop hasHandler evs ∧
      Gpoll.loop hasHandler [Gpoll.LoopEvent.tick (Gpoll.PollResult.err e)] =
        ([], false) :=
  ⟨rfl, rfl⟩

/-- C7: evaluated at an absolute clone directory (the default configuration
resolves to the absolute working directory) over a worktree containing
`.git/config` and `a.txt`, the synthetic startup bundle built by `onStart`
contains `Init`-typed changes for the `.git` directory and its contents:
`filepath.Match("*/.git", fp)` is false for every absolute path (`*` does
not cross path separators), so nothing is skipped.  The bundle is still
delivered once, via the handler, with the head commit's metadata — but the
version-control metadata directory is not excluded. -/
theorem onStart_emits_git_metadata_for_absolute_clone_dir :
    Gpoll.onStart true (Except.ok Gpoll.headW) "/repo" Gpoll.repoTreeW 4 =
        Except.ok (some
          { changes :=
              [{ filepath := "/repo", changeType := ChangeType.init },
               { filepath := "/repo/.git", changeType := ChangeType.init },
               { filepath := "/repo/.git/config",
                 changeType := ChangeType.init },
               { filepath := "/repo/a.txt", changeType := ChangeType.init }]
            sha := "h"
            whenUTC := 5 }) ∧
      Gpoll.onStart false (Except.ok Gpoll.headW) "/repo" Gpoll.repoTreeW 4 =
        Except.ok none :=
  ⟨rfl, rfl⟩

/-- For a single-segment relative clone directory the patterns do match:
`repo/.git` matches `*/.git`, the walk skips the metadata directory and its
contents, and only `repo` and `repo/a.txt` are enumerated.  (This is the
intended exclusion, showing the absolute-path behaviour above to be the
slip.) -/
theorem onStart_skips_git_dir_for_relative_clone_dir :
    Gpoll.onStart true (Except.ok Gpoll.headW) "repo" Gpoll.repoTreeW 4 =
      Except.ok (some
        { changes :=
            [{ filepath := "repo", changeType := ChangeType.init },
             { filepath := "repo/a.txt", changeType := ChangeType.init }]
          sha := "h"
          whenUTC := 5 }) :=
  rfl

/-- C8 counterexample: `toAuthMethod` rejects neither a configuration
supplying both an SSH key and a username/password pair (the SSH key silently
wins) nor one supplying neither (empty basic auth is produced); no
configuration error arises in either case. -/
theorem toAuthMethod_accepts_both_forms_without_error :
    Auth.toAuthMethod Auth.loadOkW Auth.cfgBothW =
        Except.ok (Auth.AuthMethod.publicKeys "git" "signer") ∧
      Auth.toAuthMethod Auth.loadOkW Auth.cfgNeitherW =
        Except.ok (Auth.AuthMethod.basicAuth "" "") :=
  ⟨rfl, rfl⟩

/-- C8 (amended): `toAuthMethod` enforces no mutual exclusivity — when the
SSH key is non-empty it is used regardless of the username/password fields,
and otherwise username/password is used (even when empty); an error can
arise only from loading the SSH key, never from the combination of fields
supplied.  (The `GitAuthConfig` tags are spelled `validation:` rather than
`validate:`, so the validator in `NewPoller` never checks them either.) -/
theorem toAuthMethod_selects_single_method_without_exclusivity
    (load : String → Except String Auth.AuthMethod)
    (cfg : Auth.GitAuthConfig) (m : Auth.AuthMethod)
    (h : (cfg.sshKey ≠ "" ∧ load cfg.sshKey = Except.ok m) ∨
      (cfg.sshKey = "" ∧ m = Auth.AuthMethod.basicAuth cfg.username
        cfg.password)) :
    Auth.toAuthMethod load cfg = Except.ok m := by
  rcases h with ⟨h1, h2⟩ | ⟨h1, h2⟩
  · rw [Auth.toAuthMethod, if_pos h1]
    exact h2
  · rw [Auth.toAuthMethod, if_neg (by simp [h1])]
    rw [h2]
    rfl

/-- Witness for the amended C8: the contradictory both-forms configuration
is accepted, the SSH key winning. -/
theorem toAuthMethod_selects_single_method_without_exclusivity_witness :
    Auth.toAuthMethod Auth.loadOkW Auth.cfgBothW =
      Except.ok (Auth.AuthMethod.publicKeys "git" "signer") :=
  toAuthMethod_selects_single_method_without_exclusivity Auth.loadOkW
    Auth.cfgBothW (Auth.AuthMethod.publicKeys "git" "signer")
    (Or.inl ⟨by decide, rfl⟩)
